import Mathlib

/-!
Verification of the `jsonwebtoken` JWT core (crate `jsonwebtoken-rustcrypto`)
against its natural-language specification.

The crate root (`src/lib.rs`) declares the modules `algorithms`, `crypto`,
`decoding`, `encoding`, `errors`, `header`, `serialization`, `validation` and
`jwk`, but only `lib.rs` itself, an example and the RSA tests are present in
the sources.  The engine below is therefore modelled from the specification
(sections 3, 4 and 6), faithful to its words; definitions that stand for
missing source files carry a doc comment saying so.  Byte strings are lists
of naturals (each byte `< 256` where it matters); external collaborators
(the JSON codec and the cryptographic primitives) are parameters, exactly as
the specification scopes them out.
-/

namespace JWT

/-- Byte strings: a token, a segment, a key or a signature is a list of
naturals, each standing for one byte. -/
abbrev Bytes := List Nat

/-- Modelled from the spec: `src/algorithms.rs` is not under `src/`.  The
closed algorithm enumeration of spec section 3. -/
inductive Algorithm where
  | HS256 | HS384 | HS512
  | RS256 | RS384 | RS512
  | PS256 | PS384 | PS512
  | ES256 | ES384
  | EdDSA
deriving DecidableEq

/-- ASCII code of the base64url digit for a 6-bit value (spec section 4.4:
segments are base64url with no padding; `-` and `_` are the two extra
digits). -/
def b64Char (n : Nat) : Nat :=
  if n < 26 then 65 + n
  else if n < 52 then 97 + (n - 26)
  else if n < 62 then 48 + (n - 52)
  else if n = 62 then 45
  else 95

/-- Inverse digit lookup: the 6-bit value of a base64url ASCII code, `none`
for a byte outside the alphabet (in particular for the padding byte `=`,
which spec section 4.4 rejects). -/
def b64Val (c : Nat) : Option Nat :=
  if 65 ≤ c ∧ c ≤ 90 then some (c - 65)
  else if 97 ≤ c ∧ c ≤ 122 then some (c - 97 + 26)
  else if 48 ≤ c ∧ c ≤ 57 then some (c - 48 + 52)
  else if c = 45 then some 62
  else if c = 95 then some 63
  else none

/-- Modelled from the spec: `src/serialization.rs` is not under `src/`.
base64url encoding without padding (spec sections 4.4 and 6), three input
bytes to four output bytes, with the short final chunk rules. -/
def base64urlEncode : Bytes → Bytes
  | [] => []
  | [a] => [b64Char (a / 4), b64Char (a % 4 * 16)]
  | [a, b] => [b64Char (a / 4), b64Char (a % 4 * 16 + b / 16), b64Char (b % 16 * 4)]
  | a :: b :: c :: rest =>
      b64Char (a / 4) :: b64Char (a % 4 * 16 + b / 16) ::
      b64Char (b % 16 * 4 + c / 64) :: b64Char (c % 64) :: base64urlEncode rest

/-- Modelled from the spec: `src/serialization.rs` is not under `src/`.
base64url decoding; `none` on a byte outside the alphabet or an impossible
length (4k+1). -/
def base64urlDecode : Bytes → Option Bytes
  | [] => some []
  | [c1, c2] =>
      match b64Val c1, b64Val c2 with
      | some e1, some e2 => some [e1 * 4 + e2 / 16]
      | _, _ => none
  | [c1, c2, c3] =>
      match b64Val c1, b64Val c2, b64Val c3 with
      | some e1, some e2, some e3 => some [e1 * 4 + e2 / 16, e2 % 16 * 16 + e3 / 4]
      | _, _, _ => none
  | c1 :: c2 :: c3 :: c4 :: rest =>
      match b64Val c1, b64Val c2, b64Val c3, b64Val c4, base64urlDecode rest with
      | some e1, some e2, some e3, some e4, some tl =>
          some ((e1 * 4 + e2 / 16) :: (e2 % 16 * 16 + e3 / 4) :: (e3 % 4 * 64 + e4) :: tl)
      | _, _, _, _, _ => none
  | [_] => none

theorem b64Val_b64Char : ∀ n < 64, b64Val (b64Char n) = some n := by decide

/-- The ASCII code of the segment separator `.` never appears in base64url
output. -/
theorem b64Char_ne_dot (n : Nat) : b64Char n ≠ 46 := by
  unfold b64Char
  split
  · omega
  · split
    · omega
    · split
      · omega
      · split <;> omega

/-- base64url decoding inverts encoding on genuine byte strings. -/
theorem base64urlDecode_encode (l : Bytes) (h : ∀ x ∈ l, x < 256) :
    base64urlDecode (base64urlEncode l) = some l := by
  induction l using base64urlEncode.induct with
  | case1 => simp [base64urlEncode, base64urlDecode]
  | case2 a =>
      have ha : a < 256 := h a (by simp)
      have h1 := b64Val_b64Char (a / 4) (by omega)
      have h2 := b64Val_b64Char (a % 4 * 16) (by omega)
      simp only [base64urlEncode, base64urlDecode, h1, h2, Option.some.injEq,
        List.cons.injEq, and_true]
      omega
  | case3 a b =>
      have ha : a < 256 := h a (by simp)
      have hb : b < 256 := h b (by simp)
      have h1 := b64Val_b64Char (a / 4) (by omega)
      have h2 := b64Val_b64Char (a % 4 * 16 + b / 16) (by omega)
      have h3 := b64Val_b64Char (b % 16 * 4) (by omega)
      simp only [base64urlEncode, base64urlDecode, h1, h2, h3, Option.some.injEq,
        List.cons.injEq, and_true]
      omega
  | case4 a b c rest ih =>
      have ha : a < 256 := h a (by simp)
      have hb : b < 256 := h b (by simp)
      have hc : c < 256 := h c (by simp)
      have h1 := b64Val_b64Char (a / 4) (by omega)
      have h2 := b64Val_b64Char (a % 4 * 16 + b / 16) (by omega)
      have h3 := b64Val_b64Char (b % 16 * 4 + c / 64) (by omega)
      have h4 := b64Val_b64Char (c % 64) (by omega)
      have hrest := ih (fun x hx => h x (by simp [hx]))
      simp only [base64urlEncode, base64urlDecode, h1, h2, h3, h4, hrest,
        Option.some.injEq, List.cons.injEq, and_true]
      omega

/-- Every byte of base64url output is a base64url digit. -/
theorem mem_base64urlEncode (l : Bytes) (x : Nat) (hx : x ∈ base64urlEncode l) :
    ∃ n, x = b64Char n := by
  induction l using base64urlEncode.induct with
  | case1 => simp [base64urlEncode] at hx
  | case2 a =>
      simp only [base64urlEncode, List.mem_cons, List.not_mem_nil, or_false] at hx
      rcases hx with h | h <;> exact ⟨_, h⟩
  | case3 a b =>
      simp only [base64urlEncode, List.mem_cons, List.not_mem_nil, or_false] at hx
      rcases hx with h | h | h <;> exact ⟨_, h⟩
  | case4 a b c rest ih =>
      simp only [base64urlEncode, List.mem_cons] at hx
      rcases hx with h | h | h | h | h
      · exact ⟨_, h⟩
      · exact ⟨_, h⟩
      · exact ⟨_, h⟩
      · exact ⟨_, h⟩
      · exact ih h

/-- A byte string contains no `.` separator. -/
def NoDot (l : Bytes) : Prop := 46 ∉ l

instance (l : Bytes) : Decidable (NoDot l) := by unfold NoDot; infer_instance

theorem noDot_base64urlEncode (l : Bytes) : NoDot (base64urlEncode l) := by
  intro hmem
  obtain ⟨n, hn⟩ := mem_base64urlEncode l 46 hmem
  exact b64Char_ne_dot n hn.symm

theorem base64urlEncode_ne_nil (l : Bytes) (h : l ≠ []) : base64urlEncode l ≠ [] := by
  match l with
  | [] => exact absurd rfl h
  | [a] => simp [base64urlEncode]
  | [a, b] => simp [base64urlEncode]
  | a :: b :: c :: rest => simp [base64urlEncode]

/-- Modelled from the spec: `src/decoding.rs` is not under `src/`.  Splitting
a token on the `.` separator (spec section 4.6 step 1). -/
def splitOnDot : Bytes → List Bytes
  | [] => [[]]
  | c :: rest =>
      if c = 46 then [] :: splitOnDot rest
      else
        match splitOnDot rest with
        | [] => [[c]]
        | s :: ss => (c :: s) :: ss

theorem splitOnDot_noDot (a : Bytes) (h : NoDot a) : splitOnDot a = [a] := by
  induction a with
  | nil => rfl
  | cons c t ih =>
      have hc : c ≠ 46 := fun heq => h (heq ▸ List.mem_cons_self c t)
      have ht : NoDot t := fun hmem => h (List.mem_cons_of_mem c hmem)
      simp only [splitOnDot, if_neg hc, ih ht]

theorem splitOnDot_append_dot (a b : Bytes) (h : NoDot a) :
    splitOnDot (a ++ 46 :: b) = a :: splitOnDot b := by
  induction a with
  | nil => simp [splitOnDot]
  | cons c t ih =>
      have hc : c ≠ 46 := fun heq => h (heq ▸ List.mem_cons_self c t)
      have ht : NoDot t := fun hmem => h (List.mem_cons_of_mem c hmem)
      rw [List.cons_append]
      simp only [splitOnDot, if_neg hc]
      rw [ih ht]

/-- Assembling a three-segment compact token (spec section 6: segments
joined by `.`). -/
def mkToken (s1 s2 s3 : Bytes) : Bytes := s1 ++ 46 :: (s2 ++ 46 :: s3)

theorem splitOnDot_mkToken (s1 s2 s3 : Bytes)
    (h1 : NoDot s1) (h2 : NoDot s2) (h3 : NoDot s3) :
    splitOnDot (mkToken s1 s2 s3) = [s1, s2, s3] := by
  unfold mkToken
  rw [splitOnDot_append_dot s1 _ h1, splitOnDot_append_dot s2 _ h2, splitOnDot_noDot s3 h3]

/-- Modelled from the spec: `src/errors.rs` is not under `src/`.  The flat
error taxonomy of spec section 7. -/
inductive ErrorKind where
  | Malformed
  | Base64Error
  | JsonError
  | KeyFormat
  | KeyTypeMismatch
  | AlgorithmNotAllowed
  | InvalidSignature
  | ExpiredSignature
  | ImmatureSignature
  | MissingRequiredClaim (name : Bytes)
  | InvalidAudience
  | InvalidIssuer
  | InvalidSubject
  | CryptoFailure
deriving DecidableEq

/-- Modelled from the spec: `src/header.rs` is not under `src/`.  Only `alg`
and `kid` are semantically load-bearing (spec section 3); `typ` and the
remaining fields round-trip opaquely, so the model keeps the three named
ones. -/
structure Header where
  alg : Algorithm
  typ : Option Bytes
  kid : Option Bytes
deriving DecidableEq

/-- The `aud` claim is a string or a set of strings (spec section 3). -/
inductive AudValue where
  | single (s : Bytes)
  | many (ss : List Bytes)
deriving DecidableEq

/-- The view the validation pass takes of the claims JSON (spec section 4.6
step 5): which keys are present, and the values of the reserved fields. -/
structure ClaimsView where
  present : List Bytes
  exp : Option Int
  nbf : Option Int
  aud : Option AudValue
  iss : Option Bytes
  sub : Option Bytes
deriving DecidableEq

/-- Modelled from the spec: `src/validation.rs` is not under `src/`.  The
validation configuration record of spec section 3; the clock is injected
separately as a `now` argument to `decode`. -/
structure Validation where
  allowed_algorithms : List Algorithm
  leeway_seconds : Nat
  validate_exp : Bool
  validate_nbf : Bool
  required_claims : List Bytes
  expected_audience : Option (List Bytes)
  expected_issuer : Option Bytes
  expected_subject : Option Bytes
deriving DecidableEq

/-- `Validation::new(alg)`: allow exactly one algorithm, validate `exp` with
zero leeway, no other constraint (spec section 8, `validation_allowing`). -/
def validationAllowing (A : Algorithm) : Validation :=
  ⟨[A], 0, true, false, [], none, none, none⟩

/-- The decode result on full success (spec section 3). -/
structure TokenData (T : Type) where
  header : Header
  claims : T
deriving DecidableEq

/-- The external JSON codec for the header segment (spec section 6 lists the
JSON codec among consumed collaborator interfaces): serialization to JSON
bytes and its partial inverse. -/
structure HeaderCodec where
  ser : Header → Bytes
  deser : Bytes → Option Header

/-- The external JSON codec for the caller's claims type `T`, together with
the view the validation pass takes of the same claims JSON (spec sections 3
and 4.6 step 5). -/
structure ClaimsCodec (T : Type) where
  ser : T → Bytes
  deser : Bytes → Option T
  view : T → ClaimsView

/-- The crypto-operations interface the engines depend on (spec section 4.3):
`sign` and `verify` over abstract key types, plus the registry's
key-compatibility test used by `encode` (spec section 4.5 step 1). -/
structure CryptoOps (EK DK : Type) where
  compat : Algorithm → EK → Bool
  sign : Bytes → EK → Algorithm → Except ErrorKind Bytes
  verify : Bytes → Bytes → DK → Algorithm → Except ErrorKind Bool

/-- ASCII bytes of the reserved claim name `exp`. -/
def expName : Bytes := [101, 120, 112]

/-- ASCII bytes of the reserved claim name `aud`. -/
def audName : Bytes := [97, 117, 100]

/-- Does an `aud` claim value intersect the expected audience set (spec
section 4.6 step 5)? -/
def audMatch : AudValue → List Bytes → Bool
  | .single s, S => S.contains s
  | .many ss, S => ss.any (fun a => S.contains a)

/-- Required-claims check: the first configured name missing from the claims
JSON yields `MissingRequiredClaim` (spec section 4.6 step 5). -/
def checkRequired (req : List Bytes) (present : List Bytes) : Option ErrorKind :=
  match req.find? (fun n => !(present.contains n)) with
  | some n => some (.MissingRequiredClaim n)
  | none => none

/-- Expiry check: with `validate_exp` and `exp` present, fail when
`exp + leeway_seconds < now` (spec section 4.6 step 5). -/
def checkExp (v : Validation) (now : Int) (cv : ClaimsView) : Option ErrorKind :=
  if v.validate_exp then
    match cv.exp with
    | some e => if e + (v.leeway_seconds : Int) < now then some .ExpiredSignature else none
    | none => none
  else none

/-- Not-before check: with `validate_nbf` and `nbf` present, fail when
`nbf - leeway_seconds > now` (spec section 4.6 step 5). -/
def checkNbf (v : Validation) (now : Int) (cv : ClaimsView) : Option ErrorKind :=
  if v.validate_nbf then
    match cv.nbf with
    | some n => if n - (v.leeway_seconds : Int) > now then some .ImmatureSignature else none
    | none => none
  else none

/-- Audience check: a configured expected audience must be intersected by a
present `aud` claim; an absent `aud` is left to the required-claims check
(spec section 4.6 step 5). -/
def checkAud (v : Validation) (cv : ClaimsView) : Option ErrorKind :=
  match v.expected_audience with
  | none => none
  | some S =>
      match cv.aud with
      | none => none
      | some a => if audMatch a S then none else some .InvalidAudience

/-- Issuer equality check (spec section 4.6 step 5). -/
def checkIss (v : Validation) (cv : ClaimsView) : Option ErrorKind :=
  match v.expected_issuer with
  | none => none
  | some want =>
      match cv.iss with
      | none => none
      | some got => if got = want then none else some .InvalidIssuer

/-- Subject equality check (spec section 4.6 step 5). -/
def checkSub (v : Validation) (cv : ClaimsView) : Option ErrorKind :=
  match v.expected_subject with
  | none => none
  | some want =>
      match cv.sub with
      | none => none
      | some got => if got = want then none else some .InvalidSubject

/-- Modelled from the spec: `src/validation.rs` is not under `src/`.  The
claim-validation pass of spec section 4.6 step 5, short-circuiting at the
first applicable error (an implementation choice the spec leaves open). -/
def validateClaims (v : Validation) (now : Int) (cv : ClaimsView) : Option ErrorKind :=
  checkRequired v.required_claims cv.present <|> checkExp v now cv <|>
    checkNbf v now cv <|> checkAud v cv <|> checkIss v cv <|> checkSub v cv

/-- The two-segment signing input `serialize_segment(header) ++ "." ++
serialize_segment(claims)` (spec section 4.5 step 2). -/
def signingInput {T : Type} (hc : HeaderCodec) (cc : ClaimsCodec T)
    (h : Header) (c : T) : Bytes :=
  base64urlEncode (hc.ser h) ++ 46 :: base64urlEncode (cc.ser c)

/-- Modelled from the spec: `src/encoding.rs` is not under `src/`.  The
encoding engine of spec section 4.5: compatibility check, signing input,
signature, compact token. -/
def encode {EK DK T : Type} (C : CryptoOps EK DK) (hc : HeaderCodec)
    (cc : ClaimsCodec T) (h : Header) (c : T) (key : EK) : Except ErrorKind Bytes :=
  if C.compat h.alg key then
    match C.sign (signingInput hc cc h c) key h.alg with
    | .error e => .error e
    | .ok sig => .ok (signingInput hc cc h c ++ 46 :: base64urlEncode sig)
  else .error .KeyTypeMismatch

/-- The body of `decode` once the token has split into exactly three
segments (spec section 4.6 steps 2 through 6): header, algorithm membership,
signature verification over the segments exactly as transmitted, claims,
validation pass. -/
def decodeSeg {EK DK T : Type} (C : CryptoOps EK DK) (hc : HeaderCodec)
    (cc : ClaimsCodec T) (s1 s2 s3 : Bytes) (key : DK) (v : Validation)
    (now : Int) : Except ErrorKind (TokenData T) :=
  if s1 = [] ∨ s2 = [] ∨ s3 = [] then .error .Malformed
  else
    match base64urlDecode s1 with
    | none => .error .Base64Error
    | some hb =>
        match hc.deser hb with
        | none => .error .JsonError
        | some header =>
            if header.alg ∈ v.allowed_algorithms then
              match base64urlDecode s3 with
              | none => .error .Base64Error
              | some sig =>
                  match C.verify sig (s1 ++ 46 :: s2) key header.alg with
                  | .error _ => .error .InvalidSignature
                  | .ok false => .error .InvalidSignature
                  | .ok true =>
                      match base64urlDecode s2 with
                      | none => .error .Base64Error
                      | some cb =>
                          match cc.deser cb with
                          | none => .error .JsonError
                          | some claims =>
                              match validateClaims v now (cc.view claims) with
                              | some e => .error e
                              | none => .ok ⟨header, claims⟩
            else .error .AlgorithmNotAllowed

/-- Modelled from the spec: `src/decoding.rs` is not under `src/`.  The
decoding and validation engine of spec section 4.6; the injected clock is
the `now` argument, read once per call. -/
def decode {EK DK T : Type} (C : CryptoOps EK DK) (hc : HeaderCodec)
    (cc : ClaimsCodec T) (token : Bytes) (key : DK) (v : Validation)
    (now : Int) : Except ErrorKind (TokenData T) :=
  match splitOnDot token with
  | [s1, s2, s3] => decodeSeg C hc cc s1 s2 s3 key v now
  | _ => .error .Malformed

/-- Modelled from the spec: `src/decoding.rs` is not under `src/`.  The
reduced path of spec section 4.6: steps 1 and 2 only, no verification. -/
def decode_header (hc : HeaderCodec) (token : Bytes) : Except ErrorKind Header :=
  match splitOnDot token with
  | [s1, s2, s3] =>
      if s1 = [] ∨ s2 = [] ∨ s3 = [] then .error .Malformed
      else
        match base64urlDecode s1 with
        | none => .error .Base64Error
        | some hb =>
            match hc.deser hb with
            | none => .error .JsonError
            | some h => .ok h
  | _ => .error .Malformed

/-- Modelled from the spec: `src/decoding.rs` is not under `src/`; `lib.rs`
re-exports this entry point.  It decodes header and claims of a well-formed
token without any signature verification or claim validation, as its name
states. -/
def dangerous_insecure_decode {T : Type} (hc : HeaderCodec) (cc : ClaimsCodec T)
    (token : Bytes) : Except ErrorKind (TokenData T) :=
  match splitOnDot token with
  | [s1, s2, s3] =>
      if s1 = [] ∨ s2 = [] ∨ s3 = [] then .error .Malformed
      else
        match base64urlDecode s1 with
        | none => .error .Base64Error
        | some hb =>
            match hc.deser hb with
            | none => .error .JsonError
            | some header =>
                match base64urlDecode s2 with
                | none => .error .Base64Error
                | some cb =>
                    match cc.deser cb with
                    | none => .error .JsonError
                    | some claims => .ok ⟨header, claims⟩
  | _ => .error .Malformed

/-- Modelled from the spec: `src/decoding.rs` is not under `src/`; `lib.rs`
re-exports this entry point.  Like `dangerous_insecure_decode` but with the
claim-validation pass applied — still no signature verification. -/
def dangerous_insecure_decode_with_validation {T : Type} (hc : HeaderCodec)
    (cc : ClaimsCodec T) (token : Bytes) (v : Validation) (now : Int) :
    Except ErrorKind (TokenData T) :=
  match dangerous_insecure_decode hc cc token with
  | .error e => .error e
  | .ok td =>
      match validateClaims v now (cc.view td.claims) with
      | some e => .error e
      | none => .ok td

/-- Modelled from the spec: `src/decoding.rs` is not under `src/`.  The
deprecated name `dangerous_unsafe_decode` that `lib.rs` still re-exports; it
is the renamed predecessor of `dangerous_insecure_decode`. -/
def dangerousDeprecatedDecode {T : Type} (hc : HeaderCodec) (cc : ClaimsCodec T)
    (token : Bytes) : Except ErrorKind (TokenData T) :=
  dangerous_insecure_decode hc cc token

/-- The public items of the crate root, translated line by line from the
`pub mod` and `pub use` declarations of `src/lib.rs`. -/
def libRsExports : List String :=
  ["crypto", "errors", "jwk",
   "Algorithm",
   "dangerous_unsafe_decode",
   "dangerous_insecure_decode", "dangerous_insecure_decode_with_validation",
   "decode", "decode_header", "DecodingKey", "TokenData",
   "encode", "EncodingKey",
   "Header",
   "Validation"]

/-- The entry points the specification (section 6) claims are the only ones
exposed, named as the crate root exports them: `encode`, `decode`,
`decode_header`, the key constructors (on `EncodingKey` and `DecodingKey`),
the `Validation` builder, and `jwk_to_decoding_key` (inside the `jwk`
module). -/
def specClaimedExports : List String :=
  ["encode", "decode", "decode_header", "EncodingKey", "DecodingKey",
   "Validation", "jwk"]

/-- The public items of `src/lib.rs` beyond those the specification's
interface list names: the insecure decode family, the lower-level `crypto`
and `errors` modules, and the `Algorithm`, `TokenData` and `Header` types. -/
def extraExports : List String :=
  ["crypto", "errors",
   "Algorithm",
   "dangerous_unsafe_decode",
   "dangerous_insecure_decode", "dangerous_insecure_decode_with_validation",
   "TokenData",
   "Header"]

/-- The key families of the algorithm registry (spec section 4.1). -/
inductive KeyFamily where
  | hmac | rsaPkcs1 | rsaPss | ec | ed
deriving DecidableEq

/-- The digest algorithms fixed by each `Algorithm` variant (spec
section 4.1); `EdDSA` pre-digests nothing, hence `digest_of` is partial. -/
inductive DigestAlg where
  | sha256 | sha384 | sha512
deriving DecidableEq

/-- Modelled from the spec: `src/algorithms.rs` is not under `src/`.  The
registry's `family_of` mapping (spec section 4.1). -/
def family_of : Algorithm → KeyFamily
  | .HS256 | .HS384 | .HS512 => .hmac
  | .RS256 | .RS384 | .RS512 => .rsaPkcs1
  | .PS256 | .PS384 | .PS512 => .rsaPss
  | .ES256 | .ES384 => .ec
  | .EdDSA => .ed

/-- Modelled from the spec: `src/algorithms.rs` is not under `src/`.  The
registry's `digest_of` mapping (spec section 4.1); `none` for `EdDSA`. -/
def digest_of : Algorithm → Option DigestAlg
  | .HS256 | .RS256 | .PS256 | .ES256 => some .sha256
  | .HS384 | .RS384 | .PS384 | .ES384 => some .sha384
  | .HS512 | .RS512 | .PS512 => some .sha512
  | .EdDSA => none

/-- The external `rsa` crate's private-key value, modelled by its numeric
components. -/
structure RsaPrivateKey where
  n : Nat
  e : Nat
  d : Nat
deriving DecidableEq

/-- The external `rsa` crate's public-key value, modelled by its numeric
components (a PEM- or DER-loaded key is already parsed to these). -/
structure RsaPublicKey where
  n : Nat
  e : Nat
deriving DecidableEq

/-- Modelled from the spec: `src/encoding.rs` is not under `src/`.  The
`EncodingKey` tagged union of spec section 3. -/
inductive EncodingKey where
  | secret (b : Bytes)
  | rsaPrivate (k : RsaPrivateKey)
  | ecPrivate (b : Bytes)
  | edPrivate (b : Bytes)
deriving DecidableEq

/-- Modelled from the spec: `src/decoding.rs` is not under `src/`.  The
`DecodingKey` tagged union of spec section 3. -/
inductive DecodingKey where
  | secret (b : Bytes)
  | rsaPublic (n e : Nat)
  | ecPublic (b : Bytes)
  | edPublic (b : Bytes)
deriving DecidableEq

/-- Modelled from the spec: the registry's `key_is_compatible` for signing
keys (spec section 4.1): the key's family must be the one `family_of`
requires. -/
def key_is_compatible_enc (alg : Algorithm) (k : EncodingKey) : Bool :=
  match family_of alg, k with
  | .hmac, .secret _ => true
  | .rsaPkcs1, .rsaPrivate _ => true
  | .rsaPss, .rsaPrivate _ => true
  | .ec, .ecPrivate _ => true
  | .ed, .edPrivate _ => true
  | _, _ => false

/-- Modelled from the spec: the registry's `key_is_compatible` for
verification keys (spec section 4.1). -/
def key_is_compatible_dec (alg : Algorithm) (k : DecodingKey) : Bool :=
  match family_of alg, k with
  | .hmac, .secret _ => true
  | .rsaPkcs1, .rsaPublic _ _ => true
  | .rsaPss, .rsaPublic _ _ => true
  | .ec, .ecPublic _ => true
  | .ed, .edPublic _ => true
  | _, _ => false

/-- The external primitive libraries (spec sections 1 and 6): digesting,
HMAC, and the per-family sign/verify routines this core calls but does not
reimplement.  The `Bool` flag of the RSA routines selects PSS padding. -/
structure Primitives where
  digest : DigestAlg → Bytes → Bytes
  hmacTag : DigestAlg → Bytes → Bytes → Bytes
  rsaSign : Bool → DigestAlg → RsaPrivateKey → Bytes → Except Unit Bytes
  rsaVerify : Bool → DigestAlg → Nat → Nat → Bytes → Bytes → Except Unit Bool
  ecSign : DigestAlg → Bytes → Bytes → Except Unit Bytes
  ecVerify : DigestAlg → Bytes → Bytes → Bytes → Except Unit Bool
  edSign : Bytes → Bytes → Except Unit Bytes
  edVerify : Bytes → Bytes → Bytes → Except Unit Bool

/-- Modelled from the spec: `src/crypto.rs` is not under `src/`.  The crypto
operation `sign` of spec section 4.3, dispatching on `family_of`. -/
def cryptoSign (P : Primitives) (m : Bytes) (k : EncodingKey) (alg : Algorithm) :
    Except ErrorKind Bytes :=
  if key_is_compatible_enc alg k then
    match family_of alg, k, digest_of alg with
    | .hmac, .secret s, some d => .ok (P.hmacTag d s m)
    | .rsaPkcs1, .rsaPrivate pk, some d =>
        (P.rsaSign false d pk (P.digest d m)).mapError (fun _ => .CryptoFailure)
    | .rsaPss, .rsaPrivate pk, some d =>
        (P.rsaSign true d pk (P.digest d m)).mapError (fun _ => .CryptoFailure)
    | .ec, .ecPrivate sk, some d =>
        (P.ecSign d sk (P.digest d m)).mapError (fun _ => .CryptoFailure)
    | .ed, .edPrivate sk, _ => (P.edSign sk m).mapError (fun _ => .CryptoFailure)
    | _, _, _ => .error .CryptoFailure
  else .error .KeyTypeMismatch

/-- Modelled from the spec: `src/crypto.rs` is not under `src/`.  The crypto
operation `verify` of spec section 4.3: symmetric dispatch; HMAC recomputes
the MAC and compares (the constant-time comparison is modelled by plain
equality, which has the same value). -/
def cryptoVerify (P : Primitives) (sig m : Bytes) (k : DecodingKey)
    (alg : Algorithm) : Except ErrorKind Bool :=
  if key_is_compatible_dec alg k then
    match family_of alg, k, digest_of alg with
    | .hmac, .secret s, some d => .ok (P.hmacTag d s m == sig)
    | .rsaPkcs1, .rsaPublic n e, some d =>
        (P.rsaVerify false d n e sig (P.digest d m)).mapError (fun _ => .CryptoFailure)
    | .rsaPss, .rsaPublic n e, some d =>
        (P.rsaVerify true d n e sig (P.digest d m)).mapError (fun _ => .CryptoFailure)
    | .ec, .ecPublic pk, some d =>
        (P.ecVerify d pk sig (P.digest d m)).mapError (fun _ => .CryptoFailure)
    | .ed, .edPublic pk, _ => (P.edVerify pk sig m).mapError (fun _ => .CryptoFailure)
    | _, _, _ => .error .CryptoFailure
  else .error .KeyTypeMismatch

/-- The `CryptoOps` instance the engines use when wired to the concrete
crypto layer. -/
def jwtCryptoOps (P : Primitives) : CryptoOps EncodingKey DecodingKey :=
  ⟨key_is_compatible_enc, cryptoSign P, cryptoVerify P⟩

/-- Big-endian bytes to a natural number, as RSA components are read. -/
def beBytesToNat (l : Bytes) : Nat := l.foldl (fun acc b => acc * 256 + b) 0

/-- Modelled from the spec: `src/decoding.rs` is not under `src/`.
`DecodingKey::from_rsa`: wrap an already-parsed RSA public key (spec
section 4.2). -/
def from_rsa (pk : RsaPublicKey) : Except ErrorKind DecodingKey :=
  .ok (.rsaPublic pk.n pk.e)

/-- Modelled from the spec: `src/decoding.rs` is not under `src/`.
`DecodingKey::from_rsa_components`: base64url-decode the published modulus
and exponent strings (no padding characters) and build the same RSA public
key; malformed base64 is a `KeyFormat` error (spec section 4.2). -/
def from_rsa_components (nStr eStr : Bytes) : Except ErrorKind DecodingKey :=
  match base64urlDecode nStr, base64urlDecode eStr with
  | some nb, some eb => .ok (.rsaPublic (beBytesToNat nb) (beBytesToNat eb))
  | _, _ => .error .KeyFormat

/-- The RSA algorithm list, translated from `RSA_ALGORITHMS` in
`tests/rsa/mod.rs`. -/
def rsaAlgorithms : List Algorithm :=
  [.RS256, .RS384, .RS512, .PS256, .PS384, .PS512]

/-- An RSA key pair behaves as a matching pair when, for either padding mode
and any digest, the primitive's signature over any digest bytes verifies
under the public components. -/
def MatchingRsaPair (P : Primitives) (priv : RsaPrivateKey) (pub : RsaPublicKey) : Prop :=
  ∀ pss d x, ∃ s, P.rsaSign pss d priv x = .ok s ∧
    P.rsaVerify pss d pub.n pub.e s x = .ok true

/-- The round-trip context of spec section 8: a compatible key pair, codecs
that invert their serializations at the given header and claims, and a
signature produced by `sign` over the signing input that `verify` accepts. -/
def GoodInstance {EK DK T : Type} (C : CryptoOps EK DK) (hc : HeaderCodec)
    (cc : ClaimsCodec T) (h : Header) (c : T) (ek : EK) (dk : DK)
    (sig : Bytes) : Prop :=
  C.compat h.alg ek = true ∧
  (∀ x ∈ hc.ser h, x < 256) ∧ hc.ser h ≠ [] ∧ hc.deser (hc.ser h) = some h ∧
  (∀ x ∈ cc.ser c, x < 256) ∧ cc.ser c ≠ [] ∧ cc.deser (cc.ser c) = some c ∧
  C.sign (signingInput hc cc h c) ek h.alg = .ok sig ∧
  (∀ x ∈ sig, x < 256) ∧ sig ≠ [] ∧
  C.verify sig (signingInput hc cc h c) dk h.alg = .ok true

theorem encode_good {EK DK T : Type} {C : CryptoOps EK DK} {hc : HeaderCodec}
    {cc : ClaimsCodec T} {h : Header} {c : T} {ek : EK} {dk : DK} {sig : Bytes}
    (g : GoodInstance C hc cc h c ek dk sig) :
    encode C hc cc h c ek =
      .ok (mkToken (base64urlEncode (hc.ser h)) (base64urlEncode (cc.ser c))
        (base64urlEncode sig)) := by
  obtain ⟨h1, _, _, _, _, _, _, h8, _⟩ := g
  have h8' : C.sign (base64urlEncode (hc.ser h) ++ 46 :: base64urlEncode (cc.ser c))
      ek h.alg = .ok sig := h8
  simp [encode, h1, h8', signingInput, mkToken]

theorem decode_good {EK DK T : Type} {C : CryptoOps EK DK} {hc : HeaderCodec}
    {cc : ClaimsCodec T} {h : Header} {c : T} {ek : EK} {dk : DK} {sig : Bytes}
    (g : GoodInstance C hc cc h c ek dk sig) (v : Validation) (now : Int)
    (halg : h.alg ∈ v.allowed_algorithms) :
    decode C hc cc
        (mkToken (base64urlEncode (hc.ser h)) (base64urlEncode (cc.ser c))
          (base64urlEncode sig)) dk v now =
      match validateClaims v now (cc.view c) with
      | some e => .error e
      | none => .ok ⟨h, c⟩ := by
  obtain ⟨h1, h2, h3, h4, h5, h6, h7, h8, h9, h10, h11⟩ := g
  have h11' : C.verify sig
      (base64urlEncode (hc.ser h) ++ 46 :: base64urlEncode (cc.ser c)) dk h.alg =
      .ok true := h11
  have hne : ¬(base64urlEncode (hc.ser h) = [] ∨ base64urlEncode (cc.ser c) = [] ∨
      base64urlEncode sig = []) := by
    simp only [not_or]
    exact ⟨base64urlEncode_ne_nil _ h3, base64urlEncode_ne_nil _ h6,
      base64urlEncode_ne_nil _ h10⟩
  unfold decode
  rw [splitOnDot_mkToken _ _ _ (noDot_base64urlEncode _) (noDot_base64urlEncode _)
    (noDot_base64urlEncode _)]
  simp only [decodeSeg, if_neg hne, base64urlDecode_encode _ h2,
    base64urlDecode_encode _ h5, base64urlDecode_encode _ h9, h4, h7, h11',
    if_pos halg]

theorem decode_ok_mem {EK DK T : Type} {C : CryptoOps EK DK} {hc : HeaderCodec}
    {cc : ClaimsCodec T} {token : Bytes} {key : DK} {v : Validation} {now : Int}
    {td : TokenData T} (hd : decode C hc cc token key v now = .ok td) :
    td.header.alg ∈ v.allowed_algorithms := by
  unfold decode at hd
  rcases hsp : splitOnDot token with _ | ⟨s1, _ | ⟨s2, _ | ⟨s3, _ | rest⟩⟩⟩ <;>
    rw [hsp] at hd <;> try simp at hd
  unfold decodeSeg at hd
  repeat split at hd <;> try simp at hd
  cases hd
  simp_all

theorem decodeSeg_invalid_sig {EK DK T : Type} {C : CryptoOps EK DK}
    {hc : HeaderCodec} {cc : ClaimsCodec T} {s1 s2 s3 : Bytes} {key : DK}
    {v : Validation} {now : Int} {hb : Bytes} {hdr : Header} {sig : Bytes}
    (hne : ¬(s1 = [] ∨ s2 = [] ∨ s3 = []))
    (hb64 : base64urlDecode s1 = some hb) (hdes : hc.deser hb = some hdr)
    (halg : hdr.alg ∈ v.allowed_algorithms)
    (hs3 : base64urlDecode s3 = some sig)
    (hver : C.verify sig (s1 ++ 46 :: s2) key hdr.alg ≠ .ok true) :
    decodeSeg C hc cc s1 s2 s3 key v now = .error .InvalidSignature := by
  simp only [decodeSeg, if_neg hne, hb64, hdes, hs3, if_pos halg]
  rcases hv : C.verify sig (s1 ++ 46 :: s2) key hdr.alg with e | b
  · rfl
  · cases b
    · rfl
    · exact absurd hv hver

theorem checkRequired_none (req present : List Bytes)
    (hreq : ∀ n ∈ req, n ∈ present) : checkRequired req present = none := by
  unfold checkRequired
  rw [List.find?_eq_none.mpr]
  intro n hn
  simpa using hreq n hn

theorem checkRequired_missing (req present : List Bytes) (n0 : Bytes)
    (hmem : n0 ∈ req) (habs : n0 ∉ present) :
    ∃ n, checkRequired req present = some (.MissingRequiredClaim n) := by
  unfold checkRequired
  rcases hf : req.find? (fun n => !(present.contains n)) with _ | n
  · rw [List.find?_eq_none] at hf
    exact absurd (by simpa using hf n0 hmem) (by simpa using habs)
  · exact ⟨n, rfl⟩

theorem validateClaims_allowing (A : Algorithm) (now : Int) (cv : ClaimsView)
    (hexp : ∀ e, cv.exp = some e → now ≤ e) :
    validateClaims (validationAllowing A) now cv = none := by
  unfold validateClaims validationAllowing checkRequired checkExp checkNbf
    checkAud checkIss checkSub
  rcases hcv : cv.exp with _ | e
  · simp [hcv]
  · have := hexp e hcv
    simp [hcv]
    omega

instance {ε α : Type} [DecidableEq ε] [DecidableEq α] : DecidableEq (Except ε α)
  | .error a, .error b =>
      if h : a = b then .isTrue (by rw [h])
      else .isFalse (by intro hc; cases hc; exact h rfl)
  | .error _, .ok _ => .isFalse (fun hc => Except.noConfusion hc)
  | .ok _, .error _ => .isFalse (fun hc => Except.noConfusion hc)
  | .ok a, .ok b =>
      if h : a = b then .isTrue (by rw [h])
      else .isFalse (by intro hc; cases hc; exact h rfl)

/-- A concrete crypto stand-in used to instantiate witnesses: every key is
compatible, the signature is the message itself, verification compares
them. -/
def testCrypto : CryptoOps Unit Unit :=
  ⟨fun _ _ => true, fun m _ _ => .ok m, fun s m _ _ => .ok (s == m)⟩

/-- The same crypto stand-in over `DecodingKey` verification keys. -/
def testCryptoDK : CryptoOps Unit DecodingKey :=
  ⟨fun _ _ => true, fun m _ _ => .ok m, fun s m _ _ => .ok (s == m)⟩

/-- Index of each algorithm, for the concrete header codec. -/
def algIdx : Algorithm → Nat
  | .HS256 => 0 | .HS384 => 1 | .HS512 => 2
  | .RS256 => 3 | .RS384 => 4 | .RS512 => 5
  | .PS256 => 6 | .PS384 => 7 | .PS512 => 8
  | .ES256 => 9 | .ES384 => 10
  | .EdDSA => 11

/-- Inverse of `algIdx`, defaulting to `HS256`. -/
def algOfIdx : Nat → Algorithm
  | 0 => .HS256 | 1 => .HS384 | 2 => .HS512
  | 3 => .RS256 | 4 => .RS384 | 5 => .RS512
  | 6 => .PS256 | 7 => .PS384 | 8 => .PS512
  | 9 => .ES256 | 10 => .ES384
  | _ => .EdDSA

/-- A concrete stand-in for the external header JSON codec used by
witnesses: one byte (the algorithm index plus one) per header. -/
def testHeaderCodec : HeaderCodec :=
  ⟨fun h => [algIdx h.alg + 1],
   fun b =>
     match b with
     | [n] => if 1 ≤ n ∧ n ≤ 12 then some ⟨algOfIdx (n - 1), none, none⟩ else none
     | _ => none⟩

/-- The claims view of a claims JSON with no reserved field. -/
def emptyView : ClaimsView := ⟨[], none, none, none, none, none⟩

/-- A concrete stand-in for the external claims JSON codec used by
witnesses: unit claims serialized to one byte, with a fixed view. -/
def viewClaims (cv : ClaimsView) : ClaimsCodec Unit :=
  ⟨fun _ => [1], fun b => if b = [1] then some () else none, fun _ => cv⟩

/-- The unit claims codec with an empty view. -/
def unitClaims : ClaimsCodec Unit := viewClaims emptyView

/-- A unit claims codec whose one serialized byte base64url-encodes to a
payload containing the letter `n`, one bit away from the `.` separator. -/
def c4Claims : ClaimsCodec Unit :=
  ⟨fun _ => [158], fun b => if b = [158] then some () else none, fun _ => emptyView⟩

/-- A `Validation` with an empty allowed-algorithm set. -/
def emptyAllowed : Validation := ⟨[], 0, true, false, [], none, none, none⟩

/-- Claim C1: a token whose decoded header carries an algorithm outside
`validation.allowed_algorithms` is rejected with `AlgorithmNotAllowed`, and
the result is the same for every crypto-operations instance and every key —
so no verification work is ever performed on an unapproved algorithm. -/
theorem C1_alg_membership_precedes_verification {EK DK T : Type}
    (C : CryptoOps EK DK) (hc : HeaderCodec) (cc : ClaimsCodec T)
    (token : Bytes) (key : DK) (v : Validation) (now : Int)
    (s1 s2 s3 hb : Bytes) (h : Header)
    (hsp : splitOnDot token = [s1, s2, s3])
    (hne : ¬(s1 = [] ∨ s2 = [] ∨ s3 = []))
    (hb64 : base64urlDecode s1 = some hb)
    (hdes : hc.deser hb = some h)
    (halg : h.alg ∉ v.allowed_algorithms) :
    decode C hc cc token key v now = .error .AlgorithmNotAllowed := by
  unfold decode
  rw [hsp]
  simp only [decodeSeg, if_neg hne, hb64, hdes, if_neg halg]

/-- Witness for C1: an `HS256` token is rejected with `AlgorithmNotAllowed`
under a validation allowing only `RS256`, under the concrete test crypto. -/
theorem C1_witness :
    decode testCrypto testHeaderCodec unitClaims
      (mkToken [65, 81] [65, 81] [65, 81]) () (validationAllowing .RS256) 0 =
      .error .AlgorithmNotAllowed :=
  C1_alg_membership_precedes_verification testCrypto testHeaderCodec unitClaims
    (mkToken [65, 81] [65, 81] [65, 81]) () (validationAllowing .RS256) 0
    [65, 81] [65, 81] [65, 81] [1] ⟨.HS256, none, none⟩
    (by decide) (by decide) (by decide) (by decide) (by decide)

/-- Claim C2 counterexample: with an empty allowed-algorithm set, a token
with no separator fails `Malformed`, not `AlgorithmNotAllowed`, so not every
decode failure under an empty set is `AlgorithmNotAllowed`. -/
theorem C2_counterexample :
    decode testCrypto testHeaderCodec unitClaims [97] () emptyAllowed 0 =
      .error .Malformed ∧ ErrorKind.Malformed ≠ ErrorKind.AlgorithmNotAllowed :=
  ⟨by decide, by decide⟩

/-- Claim C2 (amended): with an empty allowed-algorithm set, decode never
succeeds for any token and any key (fails closed), and every token whose
header segment decodes fails with `AlgorithmNotAllowed`; a token that does
not reach the membership check fails with an earlier structural error. -/
theorem C2_empty_allowed_fails_closed {EK DK T : Type}
    (C : CryptoOps EK DK) (hc : HeaderCodec) (cc : ClaimsCodec T)
    (key : DK) (v : Validation) (now : Int)
    (hempty : v.allowed_algorithms = []) :
    (∀ token td, decode C hc cc token key v now ≠ .ok td) ∧
    (∀ token s1 s2 s3 hb h, splitOnDot token = [s1, s2, s3] →
      ¬(s1 = [] ∨ s2 = [] ∨ s3 = []) → base64urlDecode s1 = some hb →
      hc.deser hb = some h →
      decode C hc cc token key v now = .error .AlgorithmNotAllowed) := by
  constructor
  · intro token td hok
    have hmem := decode_ok_mem hok
    rw [hempty] at hmem
    simp at hmem
  · intro token s1 s2 s3 hb h hsp hne hb64 hdes
    have halg : h.alg ∉ v.allowed_algorithms := by rw [hempty]; simp
    unfold decode
    rw [hsp]
    simp only [decodeSeg, if_neg hne, hb64, hdes, if_neg halg]

/-- Witness for C2: under the concrete test crypto and an empty allowed set,
a structurally valid token is rejected with `AlgorithmNotAllowed`. -/
theorem C2_witness :
    decode testCrypto testHeaderCodec unitClaims
      (mkToken [65, 81] [65, 81] [65, 81]) () emptyAllowed 0 =
      .error .AlgorithmNotAllowed :=
  (C2_empty_allowed_fails_closed testCrypto testHeaderCodec unitClaims ()
      emptyAllowed 0 (by decide)).2
    (mkToken [65, 81] [65, 81] [65, 81]) [65, 81] [65, 81] [65, 81] [1]
    ⟨.HS256, none, none⟩ (by decide) (by decide) (by decide) (by decide)

/-- Claim C3: for every algorithm, every compatible key pair and codecs that
round-trip the given header and claims, decoding an encoded token under a
validation allowing that algorithm returns exactly the original header and
claims, provided a present `exp` is not expired. -/
theorem C3_round_trip {EK DK T : Type} (C : CryptoOps EK DK) (hc : HeaderCodec)
    (cc : ClaimsCodec T) (A : Algorithm) (h : Header) (c : T) (ek : EK) (dk : DK)
    (sig : Bytes) (now : Int)
    (g : GoodInstance C hc cc h c ek dk sig)
    (hA : h.alg = A)
    (hexp : ∀ e, (cc.view c).exp = some e → now ≤ e) :
    ∃ tok, encode C hc cc h c ek = .ok tok ∧
      decode C hc cc tok dk (validationAllowing A) now = .ok ⟨h, c⟩ := by
  refine ⟨_, encode_good g, ?_⟩
  rw [decode_good g (validationAllowing A) now (by simp [validationAllowing, hA])]
  rw [validateClaims_allowing A now _ hexp]

/-- Witness for C3: a concrete HS256 round trip under the test crypto and
codecs. -/
theorem C3_witness :
    ∃ tok, encode testCrypto testHeaderCodec unitClaims ⟨.HS256, none, none⟩ () () =
        .ok tok ∧
      decode testCrypto testHeaderCodec unitClaims tok ()
          (validationAllowing .HS256) 0 = .ok ⟨⟨.HS256, none, none⟩, ()⟩ :=
  C3_round_trip testCrypto testHeaderCodec unitClaims .HS256 ⟨.HS256, none, none⟩
    () () () [65, 81, 46, 65, 81] 0
    ⟨rfl, by decide, by decide, by decide, by decide, by decide, by decide, rfl,
      by decide, by decide, rfl⟩
    rfl (fun e he => Option.noConfusion he)

/-- Flipping bit `k` of byte `i` of a byte string. -/
def tamper (s : Bytes) (i k : Nat) : Bytes := s.set i (s.getD i 0 ^^^ 2 ^ k)

theorem xor_two_pow_ne (b k : Nat) : b ^^^ 2 ^ k ≠ b := by
  intro h
  have h2 : b ^^^ (b ^^^ 2 ^ k) = b ^^^ b := congrArg (b ^^^ ·) h
  rw [← Nat.xor_assoc, Nat.xor_self, Nat.zero_xor] at h2
  have := Nat.pos_pow_of_pos k (show 0 < 2 by norm_num)
  omega

theorem tamper_ne (s : Bytes) (i k : Nat) (hi : i < s.length) : tamper s i k ≠ s := by
  unfold tamper
  intro heq
  have h1 : (s.set i (s.getD i 0 ^^^ 2 ^ k))[i]? = some (s.getD i 0 ^^^ 2 ^ k) := by
    rw [List.getElem?_set_self]
    exact hi
  rw [heq] at h1
  apply xor_two_pow_ne (s.getD i 0) k
  conv_rhs => rw [List.getD_eq_getElem?_getD, h1]
  rfl

theorem tamper_length (s : Bytes) (i k : Nat) : (tamper s i k).length = s.length := by
  simp [tamper]

theorem noDot_tamper (s : Bytes) (i k : Nat) (hs : NoDot s)
    (hb : s.getD i 0 ^^^ 2 ^ k ≠ 46) : NoDot (tamper s i k) := by
  intro hmem
  rcases List.mem_or_eq_of_mem_set hmem with h | h
  · exact hs h
  · exact hb h.symm

/-- Claim C4 (amended): a `false` verify result and a `CryptoFailure` are
both surfaced as the single error `InvalidSignature`; flipping one bit of
one payload byte of a valid token makes decode with the original key fail
with `InvalidSignature` whenever the flipped byte is not the `.` separator
byte. -/
theorem C4_invalid_signature :
    (∀ (EK DK T : Type) (C : CryptoOps EK DK) (hc : HeaderCodec) (cc : ClaimsCodec T)
       (s1 s2 s3 : Bytes) (key : DK) (v : Validation) (now : Int) (hb : Bytes)
       (hdr : Header) (sig : Bytes),
       NoDot s1 → NoDot s2 → NoDot s3 →
       ¬(s1 = [] ∨ s2 = [] ∨ s3 = []) →
       base64urlDecode s1 = some hb → hc.deser hb = some hdr →
       hdr.alg ∈ v.allowed_algorithms → base64urlDecode s3 = some sig →
       (C.verify sig (s1 ++ 46 :: s2) key hdr.alg = .ok false ∨
         ∃ er, C.verify sig (s1 ++ 46 :: s2) key hdr.alg = .error er) →
       decode C hc cc (mkToken s1 s2 s3) key v now = .error .InvalidSignature) ∧
    (∀ (EK DK T : Type) (C : CryptoOps EK DK) (hc : HeaderCodec) (cc : ClaimsCodec T)
       (h : Header) (c : T) (ek : EK) (dk : DK) (sig : Bytes) (v : Validation)
       (now : Int) (i k : Nat),
       GoodInstance C hc cc h c ek dk sig →
       h.alg ∈ v.allowed_algorithms →
       (∀ m, m ≠ signingInput hc cc h c → C.verify sig m dk h.alg ≠ .ok true) →
       i < (base64urlEncode (cc.ser c)).length →
       (base64urlEncode (cc.ser c)).getD i 0 ^^^ 2 ^ k ≠ 46 →
       decode C hc cc
         (mkToken (base64urlEncode (hc.ser h))
           (tamper (base64urlEncode (cc.ser c)) i k)
           (base64urlEncode sig)) dk v now = .error .InvalidSignature) := by
  constructor
  · intro EK DK T C hc cc s1 s2 s3 key v now hb hdr sig hn1 hn2 hn3 hne hb64 hdes
      halg hs3 hver
    unfold decode
    rw [splitOnDot_mkToken _ _ _ hn1 hn2 hn3]
    refine decodeSeg_invalid_sig hne hb64 hdes halg hs3 ?_
    rcases hver with hv | ⟨er, hv⟩ <;> rw [hv] <;> simp
  · intro EK DK T C hc cc h c ek dk sig v now i k g halg honest hi hflip
    obtain ⟨g1, g2, g3, g4, g5, g6, g7, g8, g9, g10, g11⟩ := g
    have hn2 : NoDot (tamper (base64urlEncode (cc.ser c)) i k) :=
      noDot_tamper _ i k (noDot_base64urlEncode _) hflip
    have htne : tamper (base64urlEncode (cc.ser c)) i k ≠ [] := by
      have := tamper_length (base64urlEncode (cc.ser c)) i k
      intro hcon
      rw [hcon] at this
      simp at this
      omega
    have hne : ¬(base64urlEncode (hc.ser h) = [] ∨
        tamper (base64urlEncode (cc.ser c)) i k = [] ∨ base64urlEncode sig = []) := by
      simp only [not_or]
      exact ⟨base64urlEncode_ne_nil _ g3, htne, base64urlEncode_ne_nil _ g10⟩
    unfold decode
    rw [splitOnDot_mkToken _ _ _ (noDot_base64urlEncode _) hn2 (noDot_base64urlEncode _)]
    refine decodeSeg_invalid_sig hne (base64urlDecode_encode _ g2) g4 halg
      (base64urlDecode_encode _ g9) ?_
    apply honest
    intro hcon
    unfold signingInput at hcon
    have h2 := List.append_cancel_left hcon
    have h3 := (List.cons.inj h2).2
    exact tamper_ne _ i k hi h3

/-- Claim C4 counterexample: in a valid token whose payload contains the
byte `n`, flipping bit 6 of that byte turns it into the `.` separator, and
decode then fails with `Malformed`, not `InvalidSignature`. -/
theorem C4_counterexample :
    decode testCrypto testHeaderCodec c4Claims
        (mkToken [65, 81] [110, 103] [81, 86, 69, 117, 98, 109, 99]) ()
        (validationAllowing .HS256) 0 = .ok ⟨⟨.HS256, none, none⟩, ()⟩ ∧
    tamper [110, 103] 0 6 = [46, 103] ∧
    decode testCrypto testHeaderCodec c4Claims
        (mkToken [65, 81] [46, 103] [81, 86, 69, 117, 98, 109, 99]) ()
        (validationAllowing .HS256) 0 = .error .Malformed ∧
    ErrorKind.Malformed ≠ ErrorKind.InvalidSignature :=
  ⟨by decide, by decide, by decide, by decide⟩

/-- Witness for C4: a wrong signature yields `InvalidSignature`, and so does
a payload bit flip that stays off the separator byte, in the concrete
instance. -/
theorem C4_witness :
    decode testCrypto testHeaderCodec unitClaims (mkToken [65, 81] [65, 81] [65, 81])
        () (validationAllowing .HS256) 0 = .error .InvalidSignature ∧
    decode testCrypto testHeaderCodec c4Claims
        (mkToken [65, 81] (tamper [110, 103] 0 0) [81, 86, 69, 117, 98, 109, 99]) ()
        (validationAllowing .HS256) 0 = .error .InvalidSignature :=
  ⟨C4_invalid_signature.1 Unit Unit Unit testCrypto testHeaderCodec unitClaims
      [65, 81] [65, 81] [65, 81] () (validationAllowing .HS256) 0 [1]
      ⟨.HS256, none, none⟩ [1]
      (by decide) (by decide) (by decide) (by decide) (by decide) (by decide)
      (by decide) (by decide) (Or.inl (by decide)),
   C4_invalid_signature.2 Unit Unit Unit testCrypto testHeaderCodec c4Claims
      ⟨.HS256, none, none⟩ () () () [65, 81, 46, 110, 103]
      (validationAllowing .HS256) 0 0 0
      ⟨rfl, by decide, by decide, by decide, by decide, by decide, by decide, rfl,
        by decide, by decide, rfl⟩
      (by decide)
      (fun m hm hcon => hm (eq_of_beq (Except.ok.inj hcon)).symm)
      (by decide) (by decide)⟩

/-- Claim C5: with `validate_exp` on and an `exp` claim present, decode of a
valid token fails `ExpiredSignature` exactly when `exp + leeway_seconds <
now`; an absent `exp` is no error, unless `exp` is required and missing, in
which case the failure is `MissingRequiredClaim`. -/
theorem C5_expiry {EK DK T : Type} (C : CryptoOps EK DK) (hc : HeaderCodec)
    (cc : ClaimsCodec T) (h : Header) (c : T) (ek : EK) (dk : DK) (sig : Bytes)
    (v : Validation) (now e : Int)
    (g : GoodInstance C hc cc h c ek dk sig)
    (halg : h.alg ∈ v.allowed_algorithms)
    (hvexp : v.validate_exp = true) (hnbf : v.validate_nbf = false)
    (haud : v.expected_audience = none) (hiss : v.expected_issuer = none)
    (hsub : v.expected_subject = none) :
    ∃ tok, encode C hc cc h c ek = .ok tok ∧
      (((cc.view c).exp = some e → (∀ n ∈ v.required_claims, n ∈ (cc.view c).present) →
         decode C hc cc tok dk v now =
           (if e + (v.leeway_seconds : Int) < now then .error .ExpiredSignature
            else .ok ⟨h, c⟩)) ∧
       ((cc.view c).exp = none → (∀ n ∈ v.required_claims, n ∈ (cc.view c).present) →
         decode C hc cc tok dk v now = .ok ⟨h, c⟩) ∧
       (expName ∈ v.required_claims → expName ∉ (cc.view c).present →
         ∃ n, decode C hc cc tok dk v now = .error (.MissingRequiredClaim n))) := by
  refine ⟨_, encode_good g, ?_, ?_, ?_⟩
  · intro hexp hreq
    have hvc : validateClaims v now (cc.view c) =
        (if e + (v.leeway_seconds : Int) < now then some .ExpiredSignature
         else none) := by
      unfold validateClaims checkExp checkNbf checkAud checkIss checkSub
      rw [checkRequired_none _ _ hreq]
      simp [hvexp, hnbf, haud, hiss, hsub, hexp]
    rw [decode_good g v now halg, hvc]
    by_cases hcond : e + (v.leeway_seconds : Int) < now
    · rw [if_pos hcond, if_pos hcond]
    · rw [if_neg hcond, if_neg hcond]
  · intro hexp hreq
    have hvc : validateClaims v now (cc.view c) = none := by
      unfold validateClaims checkExp checkNbf checkAud checkIss checkSub
      rw [checkRequired_none _ _ hreq]
      simp [hvexp, hnbf, haud, hiss, hsub, hexp]
    rw [decode_good g v now halg, hvc]
  · intro hmem habs
    obtain ⟨n, hn⟩ := checkRequired_missing v.required_claims (cc.view c).present
      expName hmem habs
    refine ⟨n, ?_⟩
    rw [decode_good g v now halg]
    unfold validateClaims
    rw [hn]
    rfl

/-- The claims view of a payload carrying only an `exp` field. -/
def expView (e : Int) : ClaimsView := ⟨[expName], some e, none, none, none, none⟩

/-- A validation allowing `HS256` with `validate_exp` and a given leeway. -/
def vExp (leeway : Nat) : Validation :=
  ⟨[.HS256], leeway, true, false, [], none, none, none⟩

/-- Witness for C5: `exp = now - 1` fails with zero leeway and succeeds with
leeway 2 on the same concrete token. -/
theorem C5_witness :
    decode testCrypto testHeaderCodec (viewClaims (expView 999))
        (mkToken [65, 81] [65, 81] [81, 86, 69, 117, 81, 86, 69]) ()
        (vExp 0) 1000 = .error .ExpiredSignature ∧
    decode testCrypto testHeaderCodec (viewClaims (expView 999))
        (mkToken [65, 81] [65, 81] [81, 86, 69, 117, 81, 86, 69]) ()
        (vExp 2) 1000 = .ok ⟨⟨.HS256, none, none⟩, ()⟩ := by
  constructor
  · obtain ⟨tok, henc, h1, h2, h3⟩ :=
      C5_expiry testCrypto testHeaderCodec (viewClaims (expView 999))
        ⟨.HS256, none, none⟩ () () () [65, 81, 46, 65, 81] (vExp 0) 1000 999
        ⟨rfl, by decide, by decide, by decide, by decide, by decide, by decide, rfl,
          by decide, by decide, rfl⟩
        (by decide) rfl rfl rfl rfl rfl
    have hconc : encode testCrypto testHeaderCodec (viewClaims (expView 999))
        ⟨.HS256, none, none⟩ () () =
        .ok (mkToken [65, 81] [65, 81] [81, 86, 69, 117, 81, 86, 69]) := by decide
    rw [hconc] at henc
    obtain rfl := Except.ok.inj henc
    rw [h1 rfl (by simp [vExp]), if_pos (by decide)]
  · obtain ⟨tok, henc, h1, h2, h3⟩ :=
      C5_expiry testCrypto testHeaderCodec (viewClaims (expView 999))
        ⟨.HS256, none, none⟩ () () () [65, 81, 46, 65, 81] (vExp 2) 1000 999
        ⟨rfl, by decide, by decide, by decide, by decide, by decide, by decide, rfl,
          by decide, by decide, rfl⟩
        (by decide) rfl rfl rfl rfl rfl
    have hconc : encode testCrypto testHeaderCodec (viewClaims (expView 999))
        ⟨.HS256, none, none⟩ () () =
        .ok (mkToken [65, 81] [65, 81] [81, 86, 69, 117, 81, 86, 69]) := by decide
    rw [hconc] at henc
    obtain rfl := Except.ok.inj henc
    rw [h1 rfl (by simp [vExp]), if_neg (by decide)]

/-- Claim C6: with an expected audience configured, decode of a valid token
succeeds when the `aud` claim intersects it and fails `InvalidAudience` when
it does not; an absent `aud` is no error, unless `aud` is required and
missing, in which case the failure is `MissingRequiredClaim`. -/
theorem C6_audience {EK DK T : Type} (C : CryptoOps EK DK) (hc : HeaderCodec)
    (cc : ClaimsCodec T) (h : Header) (c : T) (ek : EK) (dk : DK) (sig : Bytes)
    (v : Validation) (now : Int) (S : List Bytes)
    (g : GoodInstance C hc cc h c ek dk sig)
    (halg : h.alg ∈ v.allowed_algorithms)
    (hvexp : v.validate_exp = false) (hnbf : v.validate_nbf = false)
    (haud : v.expected_audience = some S) (hiss : v.expected_issuer = none)
    (hsub : v.expected_subject = none) :
    ∃ tok, encode C hc cc h c ek = .ok tok ∧
      ((∀ a, (cc.view c).aud = some a →
         (∀ n ∈ v.required_claims, n ∈ (cc.view c).present) →
         decode C hc cc tok dk v now =
           (if audMatch a S then .ok ⟨h, c⟩ else .error .InvalidAudience)) ∧
       ((cc.view c).aud = none → (∀ n ∈ v.required_claims, n ∈ (cc.view c).present) →
         decode C hc cc tok dk v now = .ok ⟨h, c⟩) ∧
       (audName ∈ v.required_claims → audName ∉ (cc.view c).present →
         ∃ n, decode C hc cc tok dk v now = .error (.MissingRequiredClaim n))) := by
  refine ⟨_, encode_good g, ?_, ?_, ?_⟩
  · intro a ha hreq
    have hvc : validateClaims v now (cc.view c) =
        (if audMatch a S then none else some .InvalidAudience) := by
      unfold validateClaims checkExp checkNbf checkAud checkIss checkSub
      rw [checkRequired_none _ _ hreq]
      simp [hvexp, hnbf, haud, hiss, hsub, ha]
    rw [decode_good g v now halg, hvc]
    by_cases hm : audMatch a S
    · rw [if_pos hm, if_pos hm]
    · rw [if_neg hm, if_neg hm]
  · intro ha hreq
    have hvc : validateClaims v now (cc.view c) = none := by
      unfold validateClaims checkExp checkNbf checkAud checkIss checkSub
      rw [checkRequired_none _ _ hreq]
      simp [hvexp, hnbf, haud, hiss, hsub, ha]
    rw [decode_good g v now halg, hvc]
  · intro hmem habs
    obtain ⟨n, hn⟩ := checkRequired_missing v.required_claims (cc.view c).present
      audName hmem habs
    refine ⟨n, ?_⟩
    rw [decode_good g v now halg]
    unfold validateClaims
    rw [hn]
    rfl

/-- The claims view of a payload whose `aud` is the string set `a`, `b`. -/
def audView : ClaimsView :=
  ⟨[audName], none, none, some (.many [[97], [98]]), none, none⟩

/-- A validation allowing `HS256` with a configured expected audience. -/
def vAud (S : List Bytes) : Validation :=
  ⟨[.HS256], 0, false, false, [], some S, none, none⟩

/-- Witness for C6: `aud = [a, b]` succeeds against expected audience `b`
and fails `InvalidAudience` against expected audience `c` on the same
concrete token. -/
theorem C6_witness :
    decode testCrypto testHeaderCodec (viewClaims audView)
        (mkToken [65, 81] [65, 81] [81, 86, 69, 117, 81, 86, 69]) ()
        (vAud [[98]]) 0 = .ok ⟨⟨.HS256, none, none⟩, ()⟩ ∧
    decode testCrypto testHeaderCodec (viewClaims audView)
        (mkToken [65, 81] [65, 81] [81, 86, 69, 117, 81, 86, 69]) ()
        (vAud [[99]]) 0 = .error .InvalidAudience := by
  constructor
  · obtain ⟨tok, henc, h1, h2, h3⟩ :=
      C6_audience testCrypto testHeaderCodec (viewClaims audView)
        ⟨.HS256, none, none⟩ () () () [65, 81, 46, 65, 81] (vAud [[98]]) 0 [[98]]
        ⟨rfl, by decide, by decide, by decide, by decide, by decide, by decide, rfl,
          by decide, by decide, rfl⟩
        (by decide) rfl rfl rfl rfl rfl
    have hconc : encode testCrypto testHeaderCodec (viewClaims audView)
        ⟨.HS256, none, none⟩ () () =
        .ok (mkToken [65, 81] [65, 81] [81, 86, 69, 117, 81, 86, 69]) := by decide
    rw [hconc] at henc
    obtain rfl := Except.ok.inj henc
    rw [h1 (.many [[97], [98]]) rfl (by simp [vAud]), if_pos (by decide)]
  · obtain ⟨tok, henc, h1, h2, h3⟩ :=
      C6_audience testCrypto testHeaderCodec (viewClaims audView)
        ⟨.HS256, none, none⟩ () () () [65, 81, 46, 65, 81] (vAud [[99]]) 0 [[99]]
        ⟨rfl, by decide, by decide, by decide, by decide, by decide, by decide, rfl,
          by decide, by decide, rfl⟩
        (by decide) rfl rfl rfl rfl rfl
    have hconc : encode testCrypto testHeaderCodec (viewClaims audView)
        ⟨.HS256, none, none⟩ () () =
        .ok (mkToken [65, 81] [65, 81] [81, 86, 69, 117, 81, 86, 69]) := by decide
    rw [hconc] at henc
    obtain rfl := Except.ok.inj henc
    rw [h1 (.many [[97], [98]]) rfl (by simp [vAud]), if_neg (by decide)]

/-- Claim C7 counterexample: the crate root exposes
`dangerous_insecure_decode`, an entry point outside the set the
specification claims is exhaustive. -/
theorem C7_counterexample :
    "dangerous_insecure_decode" ∈ libRsExports ∧
    "dangerous_insecure_decode" ∉ specClaimedExports := by
  constructor <;> decide

/-- Claim C7 (amended): the public surface of the crate root is exactly the
specification's claimed entry points together with the insecure decode
family, the `crypto` and `errors` modules, and the `Algorithm`, `TokenData`
and `Header` types. -/
theorem C7_export_surface :
    libRsExports.Perm (specClaimedExports ++ extraExports) := by decide

/-- Claim C8: an RSA `DecodingKey` built from base64url modulus and exponent
components equals the one built from the same public key loaded from
PEM/DER, decode behaves identically under the two keys on every token, and
the component-built key verifies every token signed under the corresponding
private key. -/
theorem C8_rsa_key_paths (nStr eStr nb eb : Bytes) (pk : RsaPublicKey)
    (h1 : base64urlDecode nStr = some nb) (h2 : base64urlDecode eStr = some eb)
    (hn : beBytesToNat nb = pk.n) (he : beBytesToNat eb = pk.e) :
    from_rsa_components nStr eStr = from_rsa pk ∧
    (∀ (EK T : Type) (C : CryptoOps EK DecodingKey) (hc : HeaderCodec)
       (cc : ClaimsCodec T) (token : Bytes) (v : Validation) (now : Int)
       (dk1 dk2 : DecodingKey),
       from_rsa_components nStr eStr = .ok dk1 → from_rsa pk = .ok dk2 →
       decode C hc cc token dk1 v now = decode C hc cc token dk2 v now) ∧
    (∀ (EK T : Type) (C : CryptoOps EK DecodingKey) (hc : HeaderCodec)
       (cc : ClaimsCodec T) (h : Header) (c : T) (ek : EK) (sig : Bytes)
       (dk : DecodingKey) (v : Validation) (now : Int),
       from_rsa_components nStr eStr = .ok dk →
       GoodInstance C hc cc h c ek dk sig →
       h.alg ∈ v.allowed_algorithms →
       validateClaims v now (cc.view c) = none →
       ∃ tok, encode C hc cc h c ek = .ok tok ∧
         decode C hc cc tok dk v now = .ok ⟨h, c⟩) := by
  have hkey : from_rsa_components nStr eStr = from_rsa pk := by
    unfold from_rsa_components from_rsa
    rw [h1, h2]
    simp [hn, he]
  refine ⟨hkey, ?_, ?_⟩
  · intro EK T C hc cc token v now dk1 dk2 hd1 hd2
    rw [hkey] at hd1
    rw [hd1] at hd2
    rw [Except.ok.inj hd2]
  · intro EK T C hc cc h c ek sig dk v now hd g halg hval
    refine ⟨_, encode_good g, ?_⟩
    rw [decode_good g v now halg, hval]

/-- Witness for C8: concrete component strings decoding to modulus 256 and
exponent 1 yield the same key as `from_rsa`, and decode round-trips a signed
token under the component-built key. -/
theorem C8_witness :
    from_rsa_components [65, 81, 65] [65, 81] = from_rsa ⟨256, 1⟩ ∧
    ∃ tok, encode testCryptoDK testHeaderCodec unitClaims ⟨.RS256, none, none⟩ () () =
        .ok tok ∧
      decode testCryptoDK testHeaderCodec unitClaims tok (.rsaPublic 256 1)
        (validationAllowing .RS256) 0 = .ok ⟨⟨.RS256, none, none⟩, ()⟩ := by
  have H := C8_rsa_key_paths [65, 81, 65] [65, 81] [1, 0] [1] ⟨256, 1⟩
    (by decide) (by decide) (by decide) (by decide)
  refine ⟨H.1, ?_⟩
  exact H.2.2 Unit Unit testCryptoDK testHeaderCodec unitClaims ⟨.RS256, none, none⟩
    () () [66, 65, 46, 65, 81] (.rsaPublic 256 1) (validationAllowing .RS256) 0
    (by decide)
    ⟨rfl, by decide, by decide, by decide, by decide, by decide, by decide, rfl,
      by decide, by decide, rfl⟩
    (by decide) (by decide)

/-- Claim C9: the crate root additionally re-exports the insecure decode
family, and those functions never depend on the signature segment: two
well-formed tokens that differ only in their signature segment decode to the
same result. -/
theorem C9_insecure_no_sig_dependence :
    ("dangerous_insecure_decode" ∈ libRsExports ∧
     "dangerous_insecure_decode_with_validation" ∈ libRsExports ∧
     "dangerous_unsafe_decode" ∈ libRsExports) ∧
    (∀ (T : Type) (hc : HeaderCodec) (cc : ClaimsCodec T) (s1 s2 s3 s3' : Bytes),
       NoDot s1 → NoDot s2 → NoDot s3 → NoDot s3' → s3 ≠ [] → s3' ≠ [] →
       dangerous_insecure_decode hc cc (mkToken s1 s2 s3) =
         dangerous_insecure_decode hc cc (mkToken s1 s2 s3') ∧
       (∀ v now, dangerous_insecure_decode_with_validation hc cc (mkToken s1 s2 s3) v now =
         dangerous_insecure_decode_with_validation hc cc (mkToken s1 s2 s3') v now) ∧
       dangerousDeprecatedDecode hc cc (mkToken s1 s2 s3) =
         dangerousDeprecatedDecode hc cc (mkToken s1 s2 s3')) := by
  constructor
  · exact ⟨by decide, by decide, by decide⟩
  · intro T hc cc s1 s2 s3 s3' hn1 hn2 hn3 hn3' he3 he3'
    have key : dangerous_insecure_decode hc cc (mkToken s1 s2 s3) =
        dangerous_insecure_decode hc cc (mkToken s1 s2 s3') := by
      unfold dangerous_insecure_decode
      rw [splitOnDot_mkToken _ _ _ hn1 hn2 hn3, splitOnDot_mkToken _ _ _ hn1 hn2 hn3']
      simp [he3, he3']
    refine ⟨key, fun v now => ?_, ?_⟩
    · unfold dangerous_insecure_decode_with_validation
      rw [key]
    · unfold dangerousDeprecatedDecode
      rw [key]

/-- Witness for C9: two concrete tokens differing only in their signature
segment produce identical results under all three insecure decoders. -/
theorem C9_witness :
    dangerous_insecure_decode testHeaderCodec unitClaims
        (mkToken [65, 81] [65, 81] [65]) =
      dangerous_insecure_decode testHeaderCodec unitClaims
        (mkToken [65, 81] [65, 81] [66]) ∧
    dangerous_insecure_decode_with_validation testHeaderCodec unitClaims
        (mkToken [65, 81] [65, 81] [65]) emptyAllowed 0 =
      dangerous_insecure_decode_with_validation testHeaderCodec unitClaims
        (mkToken [65, 81] [65, 81] [66]) emptyAllowed 0 ∧
    dangerousDeprecatedDecode testHeaderCodec unitClaims
        (mkToken [65, 81] [65, 81] [65]) =
      dangerousDeprecatedDecode testHeaderCodec unitClaims
        (mkToken [65, 81] [65, 81] [66]) := by
  have H := C9_insecure_no_sig_dependence.2 Unit testHeaderCodec unitClaims
    [65, 81] [65, 81] [65] [66] (by decide) (by decide) (by decide) (by decide)
    (by decide) (by decide)
  exact ⟨H.1, H.2.1 emptyAllowed 0, H.2.2⟩

/-- Claim C10: for each of the six RSA algorithms, signing any message with
a matching private key and verifying with the corresponding public
components returns true, assuming the external RSA primitive is correct on
the pair. -/
theorem C10_rsa_crypto_round_trip (P : Primitives) (priv : RsaPrivateKey)
    (pub : RsaPublicKey) (hpair : MatchingRsaPair P priv pub) (alg : Algorithm)
    (halg : alg ∈ rsaAlgorithms) (m : Bytes) :
    ∃ sig, cryptoSign P m (.rsaPrivate priv) alg = .ok sig ∧
      cryptoVerify P sig m (.rsaPublic pub.n pub.e) alg = .ok true := by
  fin_cases halg
  · obtain ⟨s, hs, hv⟩ := hpair false .sha256 (P.digest .sha256 m)
    exact ⟨s, by simp [cryptoSign, key_is_compatible_enc, family_of, digest_of, hs,
        Except.mapError],
      by simp [cryptoVerify, key_is_compatible_dec, family_of, digest_of, hv,
        Except.mapError]⟩
  · obtain ⟨s, hs, hv⟩ := hpair false .sha384 (P.digest .sha384 m)
    exact ⟨s, by simp [cryptoSign, key_is_compatible_enc, family_of, digest_of, hs,
        Except.mapError],
      by simp [cryptoVerify, key_is_compatible_dec, family_of, digest_of, hv,
        Except.mapError]⟩
  · obtain ⟨s, hs, hv⟩ := hpair false .sha512 (P.digest .sha512 m)
    exact ⟨s, by simp [cryptoSign, key_is_compatible_enc, family_of, digest_of, hs,
        Except.mapError],
      by simp [cryptoVerify, key_is_compatible_dec, family_of, digest_of, hv,
        Except.mapError]⟩
  · obtain ⟨s, hs, hv⟩ := hpair true .sha256 (P.digest .sha256 m)
    exact ⟨s, by simp [cryptoSign, key_is_compatible_enc, family_of, digest_of, hs,
        Except.mapError],
      by simp [cryptoVerify, key_is_compatible_dec, family_of, digest_of, hv,
        Except.mapError]⟩
  · obtain ⟨s, hs, hv⟩ := hpair true .sha384 (P.digest .sha384 m)
    exact ⟨s, by simp [cryptoSign, key_is_compatible_enc, family_of, digest_of, hs,
        Except.mapError],
      by simp [cryptoVerify, key_is_compatible_dec, family_of, digest_of, hv,
        Except.mapError]⟩
  · obtain ⟨s, hs, hv⟩ := hpair true .sha512 (P.digest .sha512 m)
    exact ⟨s, by simp [cryptoSign, key_is_compatible_enc, family_of, digest_of, hs,
        Except.mapError],
      by simp [cryptoVerify, key_is_compatible_dec, family_of, digest_of, hv,
        Except.mapError]⟩

/-- A trivial concrete primitive instance for the C10 witness. -/
def testPrimitives : Primitives :=
  ⟨fun _ m => m,
   fun _ s m => s ++ m,
   fun _ _ _ x => .ok (0 :: x),
   fun _ _ _ _ s x => .ok (s == 0 :: x),
   fun _ _ x => .ok x,
   fun _ _ s x => .ok (s == x),
   fun _ m => .ok m,
   fun _ s m => .ok (s == m)⟩

/-- Witness for C10: the concrete primitive instance round-trips `RS256` on
a concrete message and key pair. -/
theorem C10_witness :
    ∃ sig, cryptoSign testPrimitives [1, 2] (.rsaPrivate ⟨5, 3, 7⟩) .RS256 =
        .ok sig ∧
      cryptoVerify testPrimitives sig [1, 2] (.rsaPublic 5 3) .RS256 = .ok true :=
  C10_rsa_crypto_round_trip testPrimitives ⟨5, 3, 7⟩ ⟨5, 3⟩
    (fun pss d x => ⟨0 :: x, rfl, by simp [testPrimitives]⟩) .RS256 (by decide) [1, 2]
